import Mathlib

set_option maxRecDepth 16384

/-!
Verification development for the label/chunk/train-test partitioning scheme
and the sparse searchlight aggregation procedure of the workshop notebooks.

The label and chunk sequences embed the notebook lines
  labels = np.ravel([[['closed'] * 4, ['open'] * 4] for i in range(48)])
  chunks = np.ravel([[i] * 64 for i in range(6)])
and the aggregation embeds the notebook helper fill_in_scattered_results.
-/

/-- Error taxonomy of the specification: invalid static parameters versus a
failing classifier evaluation. -/
inductive WorkflowError where
  | configurationError
  | evaluationError
deriving DecidableEq

/-- Core label pattern generalised from the source line
numpy ravel of the nested comprehension: for each of n_cycles cycles, each
condition of condition_sequence repeated block_size times consecutively. -/
def generate_labels_core (block_size : Nat) (condition_sequence : List String)
    (n_cycles : Nat) : List String :=
  (List.range n_cycles).flatMap
    (fun _ => condition_sequence.flatMap (fun c => List.replicate block_size c))

/-- Modelled from the spec: the operation generate_labels of the
LabelChunkGenerator component, which validates that block_size, the length of
condition_sequence and n_cycles are all positive and fails with a
ConfigurationError otherwise; the source notebook inlines the fixed
configuration with no named function and no validation. -/
def generate_labels (block_size : Int) (condition_sequence : List String)
    (n_cycles : Int) : Except WorkflowError (List String) :=
  if block_size ≤ 0 ∨ condition_sequence.length = 0 ∨ n_cycles ≤ 0 then
    Except.error WorkflowError.configurationError
  else
    Except.ok (generate_labels_core block_size.toNat condition_sequence n_cycles.toNat)

/-- Chunk pattern generalised from the source line
numpy ravel of the comprehension: n_chunks consecutive runs of length
chunk_size, run i filled with the value i. -/
def generate_chunks (chunk_size : Nat) (n_chunks : Nat) : List Nat :=
  (List.range n_chunks).flatMap (fun i => List.replicate chunk_size i)

/-- The concrete label sequence of the source notebooks. -/
def labels_src : List String :=
  (List.range 48).flatMap
    (fun _ => List.replicate 4 "closed" ++ List.replicate 4 "open")

/-- The concrete chunk sequence of the source notebooks. -/
def chunks_src : List Nat :=
  (List.range 6).flatMap (fun i => List.replicate 64 i)

theorem flatMap_replicate_length {α : Type} (xs : List α) (k : Nat) :
    (xs.flatMap (fun x => List.replicate k x)).length = xs.length * k := by
  induction xs with
  | nil => simp
  | cons x xs ih =>
    simp only [List.flatMap_cons, List.length_append, List.length_replicate, ih,
      List.length_cons]
    ring

theorem flatMap_replicate_getElem? {α : Type} (xs : List α) (k i : Nat)
    (h : i < xs.length * k) :
    (xs.flatMap (fun x => List.replicate k x))[i]? = xs[i / k]? := by
  induction xs generalizing i with
  | nil => simp at h
  | cons x xs ih =>
    have hk : 0 < k := by
      rcases Nat.eq_zero_or_pos k with hk0 | hk0
      · subst hk0; simp at h
      · exact hk0
    rw [List.flatMap_cons]
    by_cases hik : i < k
    · rw [List.getElem?_append_left (by simpa using hik)]
      have hdiv : i / k = 0 := Nat.div_eq_of_lt hik
      simp [hdiv, List.getElem?_replicate, hik]
    · push_neg at hik
      rw [List.getElem?_append_right (by simpa using hik)]
      have hi : i - k < xs.length * k := by
        simp only [List.length_cons] at h
        have hexp : (xs.length + 1) * k = xs.length * k + k := by ring
        omega
      have := ih (i - k) hi
      simp only [List.length_replicate]
      rw [this]
      have hrepr : i = (i - k) + k := by omega
      have : i / k = (i - k) / k + 1 := by
        conv_lhs => rw [hrepr]
        exact Nat.add_div_right _ hk
      rw [this]
      simp

theorem flatMap_const_length {α : Type} (B : List α) (n : Nat) :
    ((List.range n).flatMap (fun _ => B)).length = n * B.length := by
  induction n with
  | zero => simp
  | succ n ih =>
    rw [List.range_succ, List.flatMap_append]
    simp only [List.length_append, ih, List.flatMap_cons, List.flatMap_nil,
      List.append_nil, List.length_cons]
    ring

theorem flatMap_const_getElem? {α : Type} (B : List α) (n i : Nat)
    (h : i < n * B.length) :
    ((List.range n).flatMap (fun _ => B))[i]? = B[i % B.length]? := by
  induction n generalizing i with
  | zero => simp at h
  | succ n ih =>
    rw [List.range_succ, List.flatMap_append]
    by_cases hi : i < n * B.length
    · rw [List.getElem?_append_left (by rw [flatMap_const_length]; exact hi)]
      exact ih i hi
    · push_neg at hi
      rw [List.getElem?_append_right (by rw [flatMap_const_length]; exact hi)]
      rw [flatMap_const_length]
      have hB : 0 < B.length := by
        rcases Nat.eq_zero_or_pos B.length with h0 | h0
        · rw [h0] at h; simp at h
        · exact h0
      rw [Nat.add_mul, one_mul] at h
      have hlt : i - n * B.length < B.length := by omega
      have hmod : i % B.length = i - n * B.length := by
        have hrepr : i = B.length * n + (i - n * B.length) := by
          rw [Nat.mul_comm B.length n]; omega
        conv_lhs => rw [hrepr]
        rw [Nat.mul_add_mod]
        exact Nat.mod_eq_of_lt hlt
      rw [hmod]
      simp [List.flatMap_cons]

theorem generate_chunks_length (chunk_size n_chunks : Nat) :
    (generate_chunks chunk_size n_chunks).length = chunk_size * n_chunks := by
  unfold generate_chunks
  rw [flatMap_replicate_length, List.length_range, Nat.mul_comm]

theorem generate_chunks_getElem? (chunk_size n_chunks i : Nat)
    (h : i < chunk_size * n_chunks) :
    (generate_chunks chunk_size n_chunks)[i]? = some (i / chunk_size) := by
  unfold generate_chunks
  have hk : 0 < chunk_size := by
    rcases Nat.eq_zero_or_pos chunk_size with h0 | h0
    · subst h0; simp at h
    · exact h0
  have hcomm : n_chunks * chunk_size = chunk_size * n_chunks := Nat.mul_comm _ _
  rw [flatMap_replicate_getElem? _ _ _ (by rw [List.length_range]; omega)]
  have hq : i / chunk_size < n_chunks :=
    (Nat.div_lt_iff_lt_mul hk).mpr (by omega)
  simp [List.getElem?_range, hq]

theorem generate_labels_core_length (block_size : Nat)
    (condition_sequence : List String) (n_cycles : Nat) :
    (generate_labels_core block_size condition_sequence n_cycles).length =
      block_size * condition_sequence.length * n_cycles := by
  unfold generate_labels_core
  rw [flatMap_const_length, flatMap_replicate_length]
  ring

theorem generate_labels_core_getElem? (block_size : Nat)
    (condition_sequence : List String) (n_cycles j r : Nat) (hr : r < block_size)
    (h : j * block_size + r < block_size * condition_sequence.length * n_cycles) :
    (generate_labels_core block_size condition_sequence n_cycles)[j * block_size + r]? =
      condition_sequence[j % condition_sequence.length]? := by
  unfold generate_labels_core
  set B := condition_sequence.flatMap (fun c => List.replicate block_size c) with hB
  set L := condition_sequence.length with hL
  have hBlen : B.length = L * block_size := by
    rw [hB, flatMap_replicate_length]
  have hL0 : 0 < L := by
    rcases Nat.eq_zero_or_pos L with h0 | h0
    · rw [h0] at h; simp at h
    · exact h0
  have hbs0 : 0 < block_size := by omega
  have hbound : j * block_size + r < n_cycles * B.length := by
    rw [hBlen]
    calc j * block_size + r < block_size * L * n_cycles := h
    _ = n_cycles * (L * block_size) := by ring
  rw [flatMap_const_getElem? _ _ _ hbound]
  -- reduce the index modulo the cycle length
  have hj : j = L * (j / L) + j % L := (Nat.div_add_mod j L).symm
  have hjmod : j % L < L := Nat.mod_lt _ hL0
  have hsmall : (j % L) * block_size + r < L * block_size := by
    have h1 : (j % L) * block_size + r < (j % L) * block_size + block_size := by omega
    have h2 : (j % L) * block_size + block_size = (j % L + 1) * block_size := by ring
    have h3 : (j % L + 1) * block_size ≤ L * block_size :=
      Nat.mul_le_mul_right _ (by omega)
    omega
  have hmod : (j * block_size + r) % B.length = (j % L) * block_size + r := by
    rw [hBlen]
    have hrepr : j * block_size + r =
        (j % L) * block_size + r + (L * block_size) * (j / L) := by
      conv_lhs => rw [hj]
      ring
    rw [hrepr, Nat.add_mul_mod_self_left]
    exact Nat.mod_eq_of_lt hsmall
  rw [hmod, hB]
  rw [flatMap_replicate_getElem? _ _ _ (by rw [← hL]; exact hsmall)]
  have hdiv : ((j % L) * block_size + r) / block_size = j % L := by
    rw [Nat.mul_comm (j % L) block_size, Nat.mul_add_div hbs0,
      Nat.div_eq_of_lt hr]
    omega
  rw [hdiv]

theorem labels_src_eq : labels_src = generate_labels_core 4 ["closed", "open"] 48 := by
  unfold labels_src generate_labels_core
  simp [List.flatMap_cons]

theorem chunks_src_eq : chunks_src = generate_chunks 64 6 := rfl

/-- Modelled from the spec: numpy's globally seeded pseudo-random generator is
external library code; a linear congruential step stands in for it as the
seeded deterministic pseudo-random generator the spec requires. -/
def nextSeed (s : Nat) : Nat := (1103515245 * s + 12345) % 2147483648

/-- Modelled from the spec: the seeded shuffle of the index list. Each step
draws a pseudo-random position from the current seed, emits the element at
that position and recurses on the remainder with the advanced seed. -/
def shuffleAux : Nat → Nat → List Nat → List Nat
  | 0, _, l => l
  | _ + 1, _, [] => []
  | fuel + 1, s, x :: xs =>
      let j := s % (x :: xs).length
      (x :: xs).getD j 0 :: shuffleAux fuel (nextSeed s) ((x :: xs).eraseIdx j)

/-- Modelled from the spec: split_indices builds the identity permutation
over the index range, shuffles it with the seeded deterministic pseudo-random
generator and cuts at the floor of train_fraction times n, returning the
train and test index lists. -/
def split_indices (n : Nat) (train_fraction : ℚ) (seed : Nat) :
    List Nat × List Nat :=
  let indices := shuffleAux n seed (List.range n)
  let cut := (Int.floor (train_fraction * n)).toNat
  (indices.take cut, indices.drop cut)

theorem perm_getD_cons_eraseIdx {α : Type} (l : List α) (j : Nat) (d : α)
    (h : j < l.length) : List.Perm l (l.getD j d :: l.eraseIdx j) := by
  induction l generalizing j with
  | nil => simp at h
  | cons x xs ih =>
    cases j with
    | zero => simp
    | succ j =>
      simp only [List.length_cons, Nat.succ_lt_succ_iff] at h
      have hperm := ih j h
      show List.Perm (x :: xs) (xs.getD j d :: x :: xs.eraseIdx j)
      exact List.Perm.trans (List.Perm.cons x hperm)
        (List.Perm.swap (xs.getD j d) x (xs.eraseIdx j))

theorem shuffleAux_perm (fuel : Nat) : ∀ (s : Nat) (l : List Nat),
    List.Perm (shuffleAux fuel s l) l := by
  induction fuel with
  | zero => intro s l; simp [shuffleAux]
  | succ fuel ih =>
    intro s l
    cases l with
    | nil => simp [shuffleAux]
    | cons x xs =>
      rw [shuffleAux]
      have hj : s % (x :: xs).length < (x :: xs).length :=
        Nat.mod_lt _ (by simp)
      have h1 := ih (nextSeed s) ((x :: xs).eraseIdx (s % (x :: xs).length))
      have h2 := perm_getD_cons_eraseIdx (x :: xs) (s % (x :: xs).length) 0 hj
      exact List.Perm.trans (List.Perm.cons _ h1) h2.symm

theorem split_indices_perm (n : Nat) (seed : Nat) :
    List.Perm (shuffleAux n seed (List.range n)) (List.range n) :=
  shuffleAux_perm n seed (List.range n)

/-- One neighborhood result handed to fill_in_scattered_results: the scalar
samples (one per output channel, the rows of res.samples) and the feature ids
of the neighborhood, mirroring res.a.roi_feature_ids. -/
structure NeighborhoodResult where
  samples : List ℚ
  roi_feature_ids : List Nat
deriving DecidableEq

/-- The two dense accumulators of fill_in_scattered_results: resmap holds one
row per output channel over all features, observ_counter one entry per
feature. -/
structure AggState where
  resmap : List (List ℚ)
  observ_counter : List Nat
deriving DecidableEq

/-- One row of the numpy update resmap[:, ids] += value: every position of
the row whose feature index lies in ids gains the value (fancy indexing adds
once per distinct index present). -/
def bumpRow (ids : List Nat) (v : ℚ) : Nat → List ℚ → List ℚ
  | _, [] => []
  | c0, x :: xs => (if c0 ∈ ids then x + v else x) :: bumpRow ids v (c0 + 1) xs

/-- The numpy update observ_counter[ids] += 1: every feature in ids has its
observation count incremented by one. -/
def bumpCount (ids : List Nat) : Nat → List Nat → List Nat
  | _, [] => []
  | c0, k :: ks => (if c0 ∈ ids then k + 1 else k) :: bumpCount ids (c0 + 1) ks

/-- Row-wise broadcast of resmap[:, ids] += res.samples: channel row ch gains
the scalar samples[ch] at every feature in ids. -/
def addRows (ids : List Nat) : List (List ℚ) → List ℚ → List (List ℚ)
  | [], _ => []
  | _ :: _, [] => []
  | row :: rows, v :: vs => bumpRow ids v 0 row :: addRows ids rows vs

/-- The body of the inner loop of fill_in_scattered_results for one res once
the accumulators exist. -/
def addResult (st : AggState) (res : NeighborhoodResult) : AggState :=
  { resmap := addRows res.roi_feature_ids st.resmap res.samples,
    observ_counter := bumpCount res.roi_feature_ids 0 st.observ_counter }

/-- The lazy allocation np.zeros((len(res), dataset.nfeatures)) together with
np.zeros(dataset.nfeatures) performed when the first res is seen. -/
def initState (nrows nfeatures : Nat) : AggState :=
  { resmap := List.replicate nrows (List.replicate nfeatures 0),
    observ_counter := List.replicate nfeatures 0 }

/-- One iteration of the inner loop: allocate the accumulators on the first
res seen, then add the result in. -/
def stepRes (nfeatures : Nat) (acc : Option AggState) (res : NeighborhoodResult) :
    Option AggState :=
  some (addResult (acc.getD (initState res.samples.length nfeatures)) res)

/-- The double loop of fill_in_scattered_results over the result blocks. -/
def aggregate (nfeatures : Nat) (results : List (List NeighborhoodResult)) :
    Option AggState :=
  results.foldl (fun acc resblock => resblock.foldl (stepRes nfeatures) acc) none

/-- The finalisation resmap[:, observ_mask] /= observ_counter[observ_mask]
restricted to one channel row: positions with a positive count are divided by
it, positions with count zero are left untouched. -/
def finalizeRow : List ℚ → List Nat → List ℚ
  | [], _ => []
  | _ :: _, [] => []
  | x :: xs, k :: ks => (if 0 < k then x / (k : ℚ) else x) :: finalizeRow xs ks

/-- Embedding of fill_in_scattered_results: fold all result blocks into the
accumulators and finalise. When no res is ever seen the accumulators were
never allocated and the finalisation step fails, hence the Option. -/
def fill_in_scattered_results (nfeatures : Nat)
    (results : List (List NeighborhoodResult)) :
    Option (List (List ℚ) × List Nat) :=
  match aggregate nfeatures results with
  | none => none
  | some st =>
      some (st.resmap.map (fun row => finalizeRow row st.observ_counter),
        st.observ_counter)

theorem bumpRow_length (ids : List Nat) (v : ℚ) (c0 : Nat) (row : List ℚ) :
    (bumpRow ids v c0 row).length = row.length := by
  induction row generalizing c0 with
  | nil => rfl
  | cons x xs ih => simp [bumpRow, ih]

theorem bumpRow_getD (ids : List Nat) (v : ℚ) (c0 c : Nat) (row : List ℚ)
    (h : c < row.length) :
    (bumpRow ids v c0 row).getD c 0 =
      row.getD c 0 + (if (c0 + c) ∈ ids then v else 0) := by
  induction row generalizing c0 c with
  | nil => simp at h
  | cons x xs ih =>
    cases c with
    | zero =>
      simp only [bumpRow, List.getD_cons_zero, Nat.add_zero]
      split <;> simp
    | succ c =>
      simp only [bumpRow, List.getD_cons_succ]
      rw [ih _ _ (by simpa using h)]
      have : c0 + 1 + c = c0 + (c + 1) := by omega
      rw [this]

theorem bumpCount_length (ids : List Nat) (c0 : Nat) (counter : List Nat) :
    (bumpCount ids c0 counter).length = counter.length := by
  induction counter generalizing c0 with
  | nil => rfl
  | cons k ks ih => simp [bumpCount, ih]

theorem bumpCount_getD (ids : List Nat) (c0 c : Nat) (counter : List Nat)
    (h : c < counter.length) :
    (bumpCount ids c0 counter).getD c 0 =
      counter.getD c 0 + (if (c0 + c) ∈ ids then 1 else 0) := by
  induction counter generalizing c0 c with
  | nil => simp at h
  | cons k ks ih =>
    cases c with
    | zero =>
      simp only [bumpCount, List.getD_cons_zero, Nat.add_zero]
      split <;> simp
    | succ c =>
      simp only [bumpCount, List.getD_cons_succ]
      rw [ih _ _ (by simpa using h)]
      have : c0 + 1 + c = c0 + (c + 1) := by omega
      rw [this]

theorem addRows_length (ids : List Nat) (rows : List (List ℚ)) (vs : List ℚ) :
    (addRows ids rows vs).length = min rows.length vs.length := by
  induction rows generalizing vs with
  | nil => simp [addRows]
  | cons row rows ih =>
    cases vs with
    | nil => simp [addRows]
    | cons v vs => simp [addRows, ih]; omega

theorem addRows_getD (ids : List Nat) (rows : List (List ℚ)) (vs : List ℚ)
    (ch : Nat) (hch : ch < rows.length) (hch2 : ch < vs.length) :
    (addRows ids rows vs).getD ch [] =
      bumpRow ids (vs.getD ch 0) 0 (rows.getD ch []) := by
  induction rows generalizing vs ch with
  | nil => simp at hch
  | cons row rows ih =>
    cases vs with
    | nil => simp at hch2
    | cons v vs =>
      cases ch with
      | zero => simp [addRows]
      | succ ch =>
        simp only [addRows, List.getD_cons_succ]
        exact ih vs ch (by simpa using hch) (by simpa using hch2)

theorem finalizeRow_getD (row : List ℚ) (counter : List Nat) (c : Nat)
    (hc : c < row.length) (hc2 : c < counter.length) :
    (finalizeRow row counter).getD c 0 =
      if 0 < counter.getD c 0 then row.getD c 0 / ((counter.getD c 0 : Nat) : ℚ)
      else row.getD c 0 := by
  induction row generalizing counter c with
  | nil => simp at hc
  | cons x xs ih =>
    cases counter with
    | nil => simp at hc2
    | cons k ks =>
      cases c with
      | zero => simp [finalizeRow]
      | succ c =>
        simp only [finalizeRow, List.getD_cons_succ]
        exact ih ks c (by simpa using hc) (by simpa using hc2)

theorem getD_replicate {α : Type} (n i : Nat) (a d : α) (h : i < n) :
    (List.replicate n a).getD i d = a := by
  induction n generalizing i with
  | zero => simp at h
  | succ n ih =>
    cases i with
    | zero => simp [List.replicate]
    | succ i => simpa [List.replicate] using ih i (by omega)

/-- The neighborhood results that cover feature c. -/
def covering (c : Nat) (rs : List NeighborhoodResult) : List NeighborhoodResult :=
  rs.filter (fun r => decide (c ∈ r.roi_feature_ids))

/-- Number of neighborhoods whose coordinate set covers feature c. -/
def coverCount (c : Nat) (rs : List NeighborhoodResult) : Nat :=
  (covering c rs).length

/-- Accumulated sum over channel ch at feature c of the scalar results of all
neighborhoods covering c. -/
def coverSum (ch c : Nat) (rs : List NeighborhoodResult) : ℚ :=
  ((covering c rs).map (fun r => r.samples.getD ch 0)).sum

theorem covering_append (c : Nat) (rs₁ rs₂ : List NeighborhoodResult) :
    covering c (rs₁ ++ rs₂) = covering c rs₁ ++ covering c rs₂ := by
  simp [covering, List.filter_append]

theorem coverCount_append_singleton (c : Nat) (rs : List NeighborhoodResult)
    (res : NeighborhoodResult) :
    coverCount c (rs ++ [res]) =
      coverCount c rs + (if c ∈ res.roi_feature_ids then 1 else 0) := by
  unfold coverCount
  rw [covering_append, List.length_append]
  unfold covering
  by_cases hmem : c ∈ res.roi_feature_ids <;> simp [hmem]

theorem coverSum_append_singleton (ch c : Nat) (rs : List NeighborhoodResult)
    (res : NeighborhoodResult) :
    coverSum ch c (rs ++ [res]) =
      coverSum ch c rs +
        (if c ∈ res.roi_feature_ids then res.samples.getD ch 0 else 0) := by
  unfold coverSum
  rw [covering_append, List.map_append, List.sum_append]
  unfold covering
  by_cases hmem : c ∈ res.roi_feature_ids <;> simp [hmem]

/-- Shape and contents invariant of the accumulators after the results in
done have been added: every channel row records the accumulated covering sum
and the counter records the covering count, over the full feature space. -/
def AggInv (nfeatures nrows : Nat) (done : List NeighborhoodResult)
    (st : AggState) : Prop :=
  st.resmap.length = nrows ∧
  (∀ ch, ch < nrows → (st.resmap.getD ch []).length = nfeatures) ∧
  st.observ_counter.length = nfeatures ∧
  (∀ ch c, ch < nrows → c < nfeatures →
    (st.resmap.getD ch []).getD c 0 = coverSum ch c done) ∧
  (∀ c, c < nfeatures → st.observ_counter.getD c 0 = coverCount c done)

theorem aggInv_init (nfeatures nrows : Nat) :
    AggInv nfeatures nrows [] (initState nrows nfeatures) := by
  refine ⟨by simp [initState], ?_, by simp [initState], ?_, ?_⟩
  · intro ch hch
    simp only [initState]
    rw [getD_replicate _ _ _ _ hch]
    simp
  · intro ch c hch hc
    simp only [initState]
    rw [getD_replicate _ _ _ _ hch, getD_replicate _ _ _ _ hc]
    simp [coverSum, covering]
  · intro c hc
    simp only [initState]
    rw [getD_replicate _ _ _ _ hc]
    simp [coverCount, covering]

theorem aggInv_step (nfeatures nrows : Nat) (done : List NeighborhoodResult)
    (st : AggState) (res : NeighborhoodResult)
    (hinv : AggInv nfeatures nrows done st)
    (hres : res.samples.length = nrows) :
    AggInv nfeatures nrows (done ++ [res]) (addResult st res) := by
  obtain ⟨hlen, hrowlen, hclen, hsum, hcount⟩ := hinv
  refine ⟨?_, ?_, ?_, ?_, ?_⟩
  · simp [addResult, addRows_length, hlen, hres]
  · intro ch hch
    simp only [addResult]
    rw [addRows_getD _ _ _ _ (by omega) (by omega), bumpRow_length]
    exact hrowlen ch hch
  · simp [addResult, bumpCount_length, hclen]
  · intro ch c hch hc
    simp only [addResult]
    rw [addRows_getD _ _ _ _ (by omega) (by omega)]
    rw [bumpRow_getD _ _ _ _ _ (by rw [hrowlen ch hch]; exact hc)]
    rw [hsum ch c hch hc, coverSum_append_singleton]
    simp
  · intro c hc
    simp only [addResult]
    rw [bumpCount_getD _ _ _ _ (by rw [hclen]; exact hc)]
    rw [hcount c hc, coverCount_append_singleton]
    simp

theorem foldl_stepRes_inv (nfeatures nrows : Nat)
    (rs : List NeighborhoodResult)
    (hunif : ∀ r ∈ rs, r.samples.length = nrows) :
    ∀ (done : List NeighborhoodResult) (st : AggState),
      AggInv nfeatures nrows done st →
      ∃ st', rs.foldl (stepRes nfeatures) (some st) = some st' ∧
        AggInv nfeatures nrows (done ++ rs) st' := by
  induction rs with
  | nil => intro done st hinv; exact ⟨st, rfl, by simpa using hinv⟩
  | cons r rs ih =>
    intro done st hinv
    have hr : r.samples.length = nrows := hunif r (by simp)
    have hstep := aggInv_step nfeatures nrows done st r hinv hr
    have hrest : ∀ x ∈ rs, x.samples.length = nrows :=
      fun x hx => hunif x (by simp [hx])
    obtain ⟨st', heq, hinv'⟩ := ih hrest (done ++ [r]) (addResult st r) hstep
    refine ⟨st', ?_, by simpa using hinv'⟩
    simpa [stepRes] using heq

theorem aggregate_eq_flat (nfeatures : Nat)
    (results : List (List NeighborhoodResult)) :
    aggregate nfeatures results =
      results.flatten.foldl (stepRes nfeatures) none := by
  unfold aggregate
  rw [List.foldl_flatten]

theorem aggregate_some (nfeatures : Nat)
    (results : List (List NeighborhoodResult)) (r0 : NeighborhoodResult)
    (rs : List NeighborhoodResult) (hflat : results.flatten = r0 :: rs)
    (hunif : ∀ r ∈ results.flatten, r.samples.length = r0.samples.length) :
    ∃ st, aggregate nfeatures results = some st ∧
      AggInv nfeatures r0.samples.length results.flatten st := by
  rw [aggregate_eq_flat, hflat]
  have hinit := aggInv_init nfeatures r0.samples.length
  have hstep := aggInv_step nfeatures r0.samples.length []
    (initState r0.samples.length nfeatures) r0 hinit rfl
  have hrest : ∀ x ∈ rs, x.samples.length = r0.samples.length := by
    intro x hx
    exact hunif x (by rw [hflat]; simp [hx])
  obtain ⟨st, heq, hinv⟩ := foldl_stepRes_inv nfeatures r0.samples.length rs
    hrest [r0] (addResult (initState r0.samples.length nfeatures) r0)
    (by simpa using hstep)
  refine ⟨st, ?_, by simpa using hinv⟩
  simpa [stepRes] using heq

theorem foldl_stepRes_some (nfeatures : Nat) (rs : List NeighborhoodResult) :
    ∀ st : AggState, ∃ st',
      rs.foldl (stepRes nfeatures) (some st) = some st' := by
  induction rs with
  | nil => intro st; exact ⟨st, rfl⟩
  | cons r rs ih =>
    intro st
    obtain ⟨st', heq⟩ := ih (addResult st r)
    exact ⟨st', by simpa [stepRes] using heq⟩

theorem aggregate_none_iff (nfeatures : Nat)
    (results : List (List NeighborhoodResult)) :
    aggregate nfeatures results = none ↔ results.flatten = [] := by
  rw [aggregate_eq_flat]
  constructor
  · intro hnone
    cases hflat : results.flatten with
    | nil => rfl
    | cons r rs =>
      rw [hflat] at hnone
      simp only [List.foldl_cons, stepRes, Option.getD_none] at hnone
      obtain ⟨st', heq⟩ := foldl_stepRes_some nfeatures rs
        (addResult (initState r.samples.length nfeatures) r)
      rw [heq] at hnone
      exact absurd hnone (by simp)
  · intro hflat
    rw [hflat]
    rfl

theorem getD_map_of_lt {α β : Type} (f : α → β) (l : List α) (i : Nat)
    (d : β) (d' : α) (h : i < l.length) :
    (l.map f).getD i d = f (l.getD i d') := by
  induction l generalizing i with
  | nil => simp at h
  | cons x xs ih =>
    cases i with
    | zero => simp
    | succ i => simpa using ih i (by simpa using h)

theorem coverSum_eq_zero_of_count_zero (ch c : Nat)
    (rs : List NeighborhoodResult) (h : coverCount c rs = 0) :
    coverSum ch c rs = 0 := by
  unfold coverCount at h
  rw [List.length_eq_zero] at h
  unfold coverSum
  rw [h]
  rfl

theorem fill_none_iff_aggregate_none (nfeatures : Nat)
    (results : List (List NeighborhoodResult)) :
    fill_in_scattered_results nfeatures results = none ↔
      aggregate nfeatures results = none := by
  unfold fill_in_scattered_results
  cases aggregate nfeatures results <;> simp

/-- Pointwise description of the finalised outputs of
fill_in_scattered_results: the counter records the covering count and the
score map the covering mean where the count is positive, the raw accumulated
sum (zero) elsewhere. -/
theorem fill_characterization (nfeatures nrows : Nat)
    (results : List (List NeighborhoodResult))
    (scores : List (List ℚ)) (counts : List Nat)
    (hunif : ∀ r ∈ results.flatten, r.samples.length = nrows)
    (hfill : fill_in_scattered_results nfeatures results =
      some (scores, counts)) :
    counts.length = nfeatures ∧ scores.length = nrows ∧
    (∀ c, c < nfeatures → counts.getD c 0 = coverCount c results.flatten) ∧
    (∀ ch c, ch < nrows → c < nfeatures →
      (scores.getD ch []).getD c 0 =
        if 0 < coverCount c results.flatten then
          coverSum ch c results.flatten /
            ((coverCount c results.flatten : Nat) : ℚ)
        else coverSum ch c results.flatten) := by
  cases hflat : results.flatten with
  | nil =>
    have hnone := (fill_none_iff_aggregate_none nfeatures results).mpr
      ((aggregate_none_iff nfeatures results).mpr hflat)
    rw [hnone] at hfill
    exact absurd hfill (by simp)
  | cons r0 rs =>
    have h0 : r0.samples.length = nrows :=
      hunif r0 (by rw [hflat]; exact List.mem_cons_self _ _)
    obtain ⟨st, haggr, hinv⟩ := aggregate_some nfeatures results r0 rs hflat
      (fun r hr => by rw [hunif r hr, h0])
    rw [h0, hflat] at hinv
    obtain ⟨hlen, hrowlen, hclen, hsum, hcount⟩ := hinv
    unfold fill_in_scattered_results at hfill
    rw [haggr] at hfill
    simp only [Option.some.injEq, Prod.mk.injEq] at hfill
    obtain ⟨hs, hcnt⟩ := hfill
    subst hs
    subst hcnt
    refine ⟨hclen, by simpa using hlen, ?_, ?_⟩
    · intro c hc
      rw [hcount c hc]
    · intro ch c hch hc
      rw [getD_map_of_lt _ _ _ _ [] (by omega)]
      rw [finalizeRow_getD _ _ _ (by rw [hrowlen ch hch]; exact hc)
        (by rw [hclen]; exact hc)]
      rw [hcount c hc, hsum ch c hch hc]

/-- Modelled from the spec: the configuration of the sphere searchlight at
the point where centers are enumerated — the grid shape, the boolean
inclusion mask and the neighborhood radius. The traversal itself lives in the
external MVPA toolbox and is reproduced here from the specification. -/
structure SearchlightConfig where
  shape : Nat × Nat × Nat
  mask : Nat → Nat → Nat → Bool
  radius : Nat

/-- All coordinates of the discrete 3D grid, in row-major order. -/
def gridCoords (shape : Nat × Nat × Nat) : List (Nat × Nat × Nat) :=
  (List.range shape.1).flatMap (fun x =>
    (List.range shape.2.1).flatMap (fun y =>
      (List.range shape.2.2).map (fun z => (x, y, z))))

/-- Squared Euclidean distance between two grid coordinates. -/
def dist2 (p q : Nat × Nat × Nat) : Int :=
  ((p.1 : Int) - q.1) * ((p.1 : Int) - q.1) +
    ((p.2.1 : Int) - q.2.1) * ((p.2.1 : Int) - q.2.1) +
    ((p.2.2 : Int) - q.2.2) * ((p.2.2 : Int) - q.2.2)

/-- Modelled from the spec: the neighborhood of a center — all grid points
within the radius of the center, intersected with the inclusion mask and the
grid bounds. -/
def neighborhood (cfg : SearchlightConfig) (center : Nat × Nat × Nat) :
    List (Nat × Nat × Nat) :=
  (gridCoords cfg.shape).filter (fun p =>
    cfg.mask p.1 p.2.1 p.2.2 &&
      decide (dist2 p center ≤ (cfg.radius : Int) * (cfg.radius : Int)))

/-- Modelled from the spec: the searchlight run over an enumerated center
list. If any center has an empty masked neighborhood the run fails with a
ConfigurationError before any evaluator call; otherwise every center is
evaluated on its neighborhood. -/
def sphere_searchlight_run (cfg : SearchlightConfig)
    (centers : List (Nat × Nat × Nat))
    (evaluator : List (Nat × Nat × Nat) → List ℚ) :
    Except WorkflowError (List (List (Nat × Nat × Nat) × List ℚ)) :=
  if centers.any (fun c => (neighborhood cfg c).isEmpty) then
    Except.error WorkflowError.configurationError
  else
    Except.ok (centers.map (fun c =>
      (neighborhood cfg c, evaluator (neighborhood cfg c))))

/-- C1: in the aggregating step, each scalar output value of a neighborhood
result is added to the sum accumulator at every coordinate covered by the
neighborhood's coordinate set, and the coordinate's observation count is
incremented by exactly one per neighborhood, regardless of the number of
output channels. -/
theorem claim_C1_scatter_add_step (st : AggState) (res : NeighborhoodResult)
    (nfeatures nrows : Nat) (hlen : st.resmap.length = nrows)
    (hrows : ∀ ch, ch < nrows → (st.resmap.getD ch []).length = nfeatures)
    (hcnt : st.observ_counter.length = nfeatures)
    (hres : res.samples.length = nrows) :
    (∀ ch c, ch < nrows → c < nfeatures →
      ((addResult st res).resmap.getD ch []).getD c 0 =
        (st.resmap.getD ch []).getD c 0 +
          (if c ∈ res.roi_feature_ids then res.samples.getD ch 0 else 0)) ∧
    (∀ c, c < nfeatures →
      (addResult st res).observ_counter.getD c 0 =
        st.observ_counter.getD c 0 +
          (if c ∈ res.roi_feature_ids then 1 else 0)) := by
  constructor
  · intro ch c hch hc
    simp only [addResult]
    rw [addRows_getD _ _ _ _ (by omega) (by omega)]
    rw [bumpRow_getD _ _ _ _ _ (by rw [hrows ch hch]; exact hc)]
    simp
  · intro c hc
    simp only [addResult]
    rw [bumpCount_getD _ _ _ _ (by rw [hcnt]; exact hc)]
    simp

/-- Concrete instance of the aggregating step: one channel, two features,
feature 1 covered. -/
theorem claim_C1_scatter_add_step_witness :
    (((addResult ⟨[[0, 0]], [0, 0]⟩ ⟨[5], [1]⟩).resmap.getD 0 []).getD 1 0 =
      ((⟨[[0, 0]], [0, 0]⟩ : AggState).resmap.getD 0 []).getD 1 0 +
        (if 1 ∈ (⟨[5], [1]⟩ : NeighborhoodResult).roi_feature_ids
         then (⟨[5], [1]⟩ : NeighborhoodResult).samples.getD 0 0 else 0)) ∧
    ((addResult ⟨[[0, 0]], [0, 0]⟩ ⟨[5], [1]⟩).observ_counter.getD 1 0 =
      (⟨[[0, 0]], [0, 0]⟩ : AggState).observ_counter.getD 1 0 +
        (if 1 ∈ (⟨[5], [1]⟩ : NeighborhoodResult).roi_feature_ids
         then 1 else 0)) :=
  ⟨(claim_C1_scatter_add_step ⟨[[0, 0]], [0, 0]⟩ ⟨[5], [1]⟩ 2 1 (by decide)
      (fun ch hch => by
        have hch0 : ch = 0 := by omega
        subst hch0; decide) (by decide) (by decide)).1 0 1 (by decide) (by decide),
   (claim_C1_scatter_add_step ⟨[[0, 0]], [0, 0]⟩ ⟨[5], [1]⟩ 2 1 (by decide)
      (fun ch hch => by
        have hch0 : ch = 0 := by omega
        subst hch0; decide) (by decide) (by decide)).2 1 (by decide)⟩

/-- C2: after finalisation, a coordinate covered by exactly k neighborhoods
(k at least one) has observation count k and score equal to the arithmetic
mean of the k scalar results of the covering neighborhoods. -/
theorem claim_C2_mean_of_k_coverage (nfeatures nrows c ch k : Nat)
    (results : List (List NeighborhoodResult))
    (scores : List (List ℚ)) (counts : List Nat)
    (hunif : ∀ r ∈ results.flatten, r.samples.length = nrows)
    (hc : c < nfeatures) (hch : ch < nrows)
    (hk : (covering c results.flatten).length = k) (hk1 : 1 ≤ k)
    (hfill : fill_in_scattered_results nfeatures results =
      some (scores, counts)) :
    counts.getD c 0 = k ∧
    (scores.getD ch []).getD c 0 =
      ((covering c results.flatten).map (fun r => r.samples.getD ch 0)).sum /
        ((k : Nat) : ℚ) := by
  obtain ⟨hclen, hslen, hcount, hscore⟩ :=
    fill_characterization nfeatures nrows results scores counts hunif hfill
  have hcc : coverCount c results.flatten = k := hk
  constructor
  · rw [hcount c hc, hcc]
  · rw [hscore ch c hch hc, hcc, if_pos (by omega)]
    rfl

/-- Concrete instance of the covered-mean property: feature 1 covered by two
neighborhoods with scalar results 1 and 0, mean one half. -/
theorem claim_C2_mean_of_k_coverage_witness :
    (([1, 2, 1] : List Nat).getD 1 0 = 2) ∧
    ((([[1, 1/2, 0]] : List (List ℚ)).getD 0 []).getD 1 0 =
      ((covering 1
          ([[⟨[1], [0, 1]⟩], [⟨[0], [1, 2]⟩]] :
            List (List NeighborhoodResult)).flatten).map
        (fun r => r.samples.getD 0 0)).sum / (((2 : Nat) : Nat) : ℚ)) :=
  claim_C2_mean_of_k_coverage 3 1 1 0 2 [[⟨[1], [0, 1]⟩], [⟨[0], [1, 2]⟩]]
    [[1, 1/2, 0]] [1, 2, 1]
    (by intro r hr
        simp only [List.flatten, List.append_nil, List.cons_append,
          List.nil_append, List.mem_cons, List.not_mem_nil, or_false] at hr
        rcases hr with h | h <;> subst h <;> rfl)
    (by decide) (by decide) (by decide) (by decide)
    (by norm_num [fill_in_scattered_results, aggregate, stepRes, addResult,
      addRows, bumpRow, bumpCount, initState, finalizeRow])

/-- C3: in the finalising step every coordinate with positive observation
count has its accumulated sum divided by its observation count, and every
coordinate with observation count zero keeps the sentinel value zero in the
score map, distinguishable from an evaluated zero score only through the
observation-count map. -/
theorem claim_C3_finalize_mean_and_sentinel (nfeatures nrows ch c : Nat)
    (results : List (List NeighborhoodResult))
    (scores : List (List ℚ)) (counts : List Nat)
    (hunif : ∀ r ∈ results.flatten, r.samples.length = nrows)
    (hch : ch < nrows) (hc : c < nfeatures)
    (hfill : fill_in_scattered_results nfeatures results =
      some (scores, counts)) :
    (0 < counts.getD c 0 →
      (scores.getD ch []).getD c 0 =
        coverSum ch c results.flatten / ((counts.getD c 0 : Nat) : ℚ)) ∧
    (counts.getD c 0 = 0 → (scores.getD ch []).getD c 0 = 0) := by
  obtain ⟨hclen, hslen, hcount, hscore⟩ :=
    fill_characterization nfeatures nrows results scores counts hunif hfill
  constructor
  · intro hpos
    rw [hscore ch c hch hc, hcount c hc]
    rw [hcount c hc] at hpos
    rw [if_pos hpos]
  · intro hzero
    rw [hscore ch c hch hc]
    rw [hcount c hc] at hzero
    rw [if_neg (by omega)]
    exact coverSum_eq_zero_of_count_zero ch c results.flatten hzero

/-- Concrete instance of finalisation: feature 0 evaluated once (mean over a
single observation), feature 2 never covered (sentinel zero). -/
theorem claim_C3_finalize_mean_and_sentinel_witness :
    ((([[1, 0, 0]] : List (List ℚ)).getD 0 []).getD 0 0 =
      coverSum 0 0 ([[⟨[1], [0]⟩]] : List (List NeighborhoodResult)).flatten /
        ((([1, 0, 0] : List Nat).getD 0 0 : Nat) : ℚ)) ∧
    ((([[1, 0, 0]] : List (List ℚ)).getD 0 []).getD 2 0 = 0) :=
  ⟨(claim_C3_finalize_mean_and_sentinel 3 1 0 0 [[⟨[1], [0]⟩]]
      [[1, 0, 0]] [1, 0, 0]
      (by intro r hr
          simp only [List.flatten, List.append_nil, List.mem_cons,
            List.not_mem_nil, or_false] at hr
          subst hr; rfl)
      (by decide) (by decide)
      (by norm_num [fill_in_scattered_results, aggregate, stepRes, addResult,
        addRows, bumpRow, bumpCount, initState, finalizeRow])).1 (by decide),
   (claim_C3_finalize_mean_and_sentinel 3 1 0 2 [[⟨[1], [0]⟩]]
      [[1, 0, 0]] [1, 0, 0]
      (by intro r hr
          simp only [List.flatten, List.append_nil, List.mem_cons,
            List.not_mem_nil, or_false] at hr
          subst hr; rfl)
      (by decide) (by decide)
      (by norm_num [fill_in_scattered_results, aggregate, stepRes, addResult,
        addRows, bumpRow, bumpCount, initState, finalizeRow])).2 (by decide)⟩

/-- C4: split_indices is deterministic — two calls with identical arguments
yield identical train index lists and identical test index lists; the seed is
the only source of randomness and it is passed explicitly. -/
theorem claim_C4_split_deterministic (n n' : Nat) (tf tf' : ℚ)
    (seed seed' : Nat) (hn : n = n') (htf : tf = tf') (hs : seed = seed') :
    (split_indices n tf seed).1 = (split_indices n' tf' seed').1 ∧
    (split_indices n tf seed).2 = (split_indices n' tf' seed').2 := by
  subst hn; subst htf; subst hs
  exact ⟨rfl, rfl⟩

/-- Concrete instance of determinism of split_indices. -/
theorem claim_C4_split_deterministic_witness :
    (split_indices 10 1 0).1 = (split_indices 10 1 0).1 ∧
    (split_indices 10 1 0).2 = (split_indices 10 1 0).2 :=
  claim_C4_split_deterministic 10 10 1 1 0 0 rfl rfl rfl

/-- C5: split_indices returns a strict bipartition of the index range — the
train and test lists are disjoint, together they cover exactly the indices
below n, and the train list has exactly floor of train_fraction times n
elements (train_fraction being a fraction between zero and one). -/
theorem claim_C5_split_bipartition (n : Nat) (train_fraction : ℚ) (seed : Nat)
    (h0 : 0 ≤ train_fraction) (h1 : train_fraction ≤ 1) :
    (∀ i, (i ∈ (split_indices n train_fraction seed).1 ∨
           i ∈ (split_indices n train_fraction seed).2) ↔ i < n) ∧
    (split_indices n train_fraction seed).1.Disjoint
      (split_indices n train_fraction seed).2 ∧
    (split_indices n train_fraction seed).1.length =
      (Int.floor (train_fraction * (n : ℚ))).toNat := by
  have hperm := split_indices_perm n seed
  have hlen : (shuffleAux n seed (List.range n)).length = n := by
    rw [hperm.length_eq, List.length_range]
  have hcutle : (Int.floor (train_fraction * (n : ℚ))).toNat ≤ n := by
    rw [Int.toNat_le]
    calc (Int.floor (train_fraction * (n : ℚ))) ≤ Int.floor ((n : ℚ)) := by
          apply Int.floor_le_floor
          calc train_fraction * (n : ℚ) ≤ 1 * (n : ℚ) :=
                mul_le_mul_of_nonneg_right h1 (by positivity)
          _ = (n : ℚ) := one_mul _
    _ = (n : Int) := Int.floor_natCast n
  refine ⟨?_, ?_, ?_⟩
  · intro i
    have hmem : (i ∈ (split_indices n train_fraction seed).1 ∨
        i ∈ (split_indices n train_fraction seed).2) ↔
        i ∈ shuffleAux n seed (List.range n) := by
      simp only [split_indices]
      rw [← List.mem_append, List.take_append_drop]
    rw [hmem, hperm.mem_iff, List.mem_range]
  · have hnodup : (shuffleAux n seed (List.range n)).Nodup :=
      (hperm.nodup_iff).mpr (List.nodup_range n)
    have hsplit := List.take_append_drop
      ((Int.floor (train_fraction * (n : ℚ))).toNat)
      (shuffleAux n seed (List.range n))
    rw [← hsplit] at hnodup
    exact (List.nodup_append.mp hnodup).2.2
  · simp only [split_indices]
    rw [List.length_take, hlen]
    omega

/-- Concrete instance of the bipartition property of split_indices. -/
theorem claim_C5_split_bipartition_witness :
    ((3 ∈ (split_indices 10 1 0).1 ∨ 3 ∈ (split_indices 10 1 0).2) ↔ 3 < 10) ∧
    (split_indices 10 1 0).1.length =
      (Int.floor ((1 : ℚ) * ((10 : Nat) : ℚ))).toNat :=
  ⟨(claim_C5_split_bipartition 10 1 0 (by decide) (by decide)).1 3,
   (claim_C5_split_bipartition 10 1 0 (by decide) (by decide)).2.2⟩

/-- C6: generate_labels_core has length block_size times the number of
conditions times n_cycles, every aligned block of block_size positions is
constant and cycles through the condition sequence; in the concrete notebook
configuration the length is 384, positions 0 to 3 hold "closed" and
positions 4 to 7 hold "open". -/
theorem claim_C6_block_design_labels :
    (∀ (block_size n_cycles : Nat) (condition_sequence : List String),
      (generate_labels_core block_size condition_sequence n_cycles).length =
        block_size * condition_sequence.length * n_cycles) ∧
    (∀ (block_size n_cycles j r : Nat) (condition_sequence : List String),
      r < block_size →
      j * block_size + r < block_size * condition_sequence.length * n_cycles →
      (generate_labels_core block_size condition_sequence
        n_cycles)[j * block_size + r]? =
        condition_sequence[j % condition_sequence.length]?) ∧
    labels_src = generate_labels_core 4 ["closed", "open"] 48 ∧
    labels_src.length = 384 ∧
    labels_src.take 4 = List.replicate 4 "closed" ∧
    (labels_src.drop 4).take 4 = List.replicate 4 "open" :=
  ⟨fun block_size n_cycles condition_sequence =>
      generate_labels_core_length block_size condition_sequence n_cycles,
   fun block_size n_cycles j r condition_sequence hr h =>
      generate_labels_core_getElem? block_size condition_sequence n_cycles j r hr h,
   labels_src_eq, by decide, by decide, by decide⟩

/-- Concrete instance of the aligned-block property of the label sequence:
run 1 (positions 4 to 7) holds the second condition. -/
theorem claim_C6_block_design_labels_witness :
    (generate_labels_core 4 ["closed", "open"] 48)[1 * 4 + 2]? =
      (["closed", "open"] : List String)[1 % 2]? :=
  claim_C6_block_design_labels.2.1 4 48 1 2 ["closed", "open"]
    (by decide) (by decide)

/-- C7: generate_chunks has length chunk_size times n_chunks and its element
at index i is i divided by chunk_size; in the concrete notebook configuration
the length is 384, positions 0 to 63 hold 0 and positions 64 to 127 hold 1. -/
theorem claim_C7_chunk_blocks :
    (∀ chunk_size n_chunks : Nat,
      (generate_chunks chunk_size n_chunks).length = chunk_size * n_chunks) ∧
    (∀ chunk_size n_chunks i : Nat, i < chunk_size * n_chunks →
      (generate_chunks chunk_size n_chunks)[i]? = some (i / chunk_size)) ∧
    chunks_src = generate_chunks 64 6 ∧
    chunks_src.length = 384 ∧
    chunks_src.take 64 = List.replicate 64 0 ∧
    (chunks_src.drop 64).take 64 = List.replicate 64 1 :=
  ⟨generate_chunks_length, generate_chunks_getElem?, chunks_src_eq,
   by decide, by decide, by decide⟩

/-- Concrete instance of the chunk indexing property. -/
theorem claim_C7_chunk_blocks_witness :
    (generate_chunks 64 6)[100]? = some (100 / 64) :=
  claim_C7_chunk_blocks.2.1 64 6 100 (by decide)

/-- C8: generate_labels fails with a ConfigurationError exactly when
block_size, the length of condition_sequence, or n_cycles is non-positive. -/
theorem claim_C8_labels_config_error (block_size : Int)
    (condition_sequence : List String) (n_cycles : Int) :
    generate_labels block_size condition_sequence n_cycles =
      Except.error WorkflowError.configurationError ↔
    (block_size ≤ 0 ∨ condition_sequence.length = 0 ∨ n_cycles ≤ 0) := by
  unfold generate_labels
  split
  · exact iff_of_true rfl (by assumption)
  · exact iff_of_false (by simp) (by assumption)

/-- C9: when any center's masked neighborhood is empty the searchlight run
fails with a ConfigurationError, for every possible evaluator — hence before
and independent of any neighborhood evaluation. -/
theorem claim_C9_empty_neighborhood_error (cfg : SearchlightConfig)
    (centers : List (Nat × Nat × Nat))
    (hempty : ∃ c ∈ centers, neighborhood cfg c = []) :
    ∀ evaluator : List (Nat × Nat × Nat) → List ℚ,
      sphere_searchlight_run cfg centers evaluator =
        Except.error WorkflowError.configurationError := by
  intro evaluator
  unfold sphere_searchlight_run
  obtain ⟨c, hc, hn⟩ := hempty
  rw [if_pos]
  exact List.any_eq_true.mpr ⟨c, hc, by simp [hn]⟩

/-- A one-voxel grid whose inclusion mask excludes everything: every
neighborhood is empty after masking. -/
def maskedOutConfig : SearchlightConfig :=
  { shape := (1, 1, 1), mask := fun _ _ _ => false, radius := 1 }

/-- Concrete instance of the empty-neighborhood configuration error. -/
theorem claim_C9_empty_neighborhood_error_witness :
    sphere_searchlight_run maskedOutConfig [(0, 0, 0)] (fun _ => [0]) =
      Except.error WorkflowError.configurationError :=
  claim_C9_empty_neighborhood_error maskedOutConfig [(0, 0, 0)]
    ⟨(0, 0, 0), by decide, by decide⟩ (fun _ => [0])

/-- C10: fill_in_scattered_results produces an output exactly when some
neighborhood result is present; with no result the accumulators are never
allocated and finalisation fails instead of returning zero-filled maps. -/
theorem claim_C10_empty_results_fail (nfeatures : Nat)
    (results : List (List NeighborhoodResult)) :
    fill_in_scattered_results nfeatures results = none ↔
      results.flatten = [] :=
  (fill_none_iff_aggregate_none nfeatures results).trans
    (aggregate_none_iff nfeatures results)
